import Mathlib

/-!
Verification development for the yoyow-core account subsystem
(`account_object.cpp` / `content.cpp`).

Shallow embedding conventions:
* `share_type` (`fc::safe<int64_t>`, exact-or-throw arithmetic) is modelled
  as `Int`; within the hypotheses of the theorems below no operation
  overflows `int64`, so `Int` arithmetic coincides with the C++ behaviour.
* `fc::uint128` values are modelled as `Nat` with explicit `% 2 ^ 128`
  after every multiplication/addition, mirroring the wraparound semantics.
* `fc::time_point_sec` (32-bit seconds since epoch) is modelled as `Nat`.
* `uint16_t` percentages and `uint64_t` windows are modelled as `Nat`.
-/

def U128 : Nat := 2 ^ 128

def U64 : Nat := 2 ^ 64

def GRAPHENE_100_PERCENT : Nat := 10000

/-- `fc::uint128 r(x)` for a signed 64-bit `x`: two's-complement wrap into
an unsigned 128-bit value. -/
def u128 (x : Int) : Nat := (x % ((U128 : Nat) : Int)).toNat

/-- `fc::uint128::to_uint64`: keep the low 64 bits. -/
def to_uint64 (x : Nat) : Nat := x % U64

/-- Conversion of a `uint64_t` value back into a signed 64-bit
`share_type` (two's complement reinterpretation). -/
def uint64_to_int64 (x : Nat) : Int :=
  if x < 2 ^ 63 then (x : Int) else (x : Int) - ((U64 : Nat) : Int)

/-- `cut_fee(share_type a, uint16_t p)` from `account_object.cpp`:
```
if( a == 0 || p == 0 ) return 0;
if( p == GRAPHENE_100_PERCENT ) return a;
fc::uint128 r(a.value); r *= p; r /= GRAPHENE_100_PERCENT; return r.to_uint64();
``` -/
def cut_fee (a : Int) (p : Nat) : Int :=
  if a = 0 ∨ p = 0 then 0
  else if p = GRAPHENE_100_PERCENT then a
  else uint64_to_int64 (to_uint64 (u128 a * p % U128 / GRAPHENE_100_PERCENT))

/-- The fields of `account_statistics_object` used by `process_fees`,
`compute_coin_seconds_earned` and `update_coin_seconds_earned`. -/
structure account_statistics_object where
  core_balance : Int
  core_leased_in : Int
  core_leased_out : Int
  average_coins : Int
  average_coins_last_update : Nat
  coin_seconds_earned : Nat
  coin_seconds_earned_last_update : Nat
  pending_fees : Int
  pending_vested_fees : Int
  lifetime_fees_paid : Int
deriving DecidableEq, Repr

/-- `share_type effective_balance = core_balance + core_leased_in - core_leased_out;` -/
def effective_balance (s : account_statistics_object) : Int :=
  s.core_balance + s.core_leased_in - s.core_leased_out

/-- The `new_average_coins` computation inside
`account_statistics_object::compute_coin_seconds_earned`, taking the
already minute-rounded time.  The `% U128` marks each `fc::uint128`
operation and the final `to_uint64()` / `share_type` conversion mirrors
`( max_coin_seconds / window ).to_uint64()`. -/
def new_average_coins_of (window now_rounded : Nat) (s : account_statistics_object) : Int :=
  if now_rounded ≤ s.average_coins_last_update then s.average_coins
  else
    let delta_seconds := now_rounded - s.average_coins_last_update
    if window ≤ delta_seconds then effective_balance s
    else
      let old_seconds := window - delta_seconds
      let old_coin_seconds := u128 s.average_coins * old_seconds % U128
      let new_coin_seconds := u128 (effective_balance s) * delta_seconds % U128
      uint64_to_int64 (to_uint64 ((old_coin_seconds + new_coin_seconds) % U128 / window))

/-- The pre-cap `new_coin_seconds_earned` computation inside
`compute_coin_seconds_earned`:
`coin_seconds_earned + effective_balance * delta_seconds` in `fc::uint128`. -/
def new_coin_seconds_earned_of (now_rounded : Nat) (s : account_statistics_object) : Nat :=
  if now_rounded ≤ s.coin_seconds_earned_last_update then s.coin_seconds_earned
  else
    (s.coin_seconds_earned +
      u128 (effective_balance s) * (now_rounded - s.coin_seconds_earned_last_update) % U128) % U128

/-- `account_statistics_object::compute_coin_seconds_earned(window, now)`:
returns `(new_coin_seconds_earned, new_average_coins)`.  After the
average is recomputed, `max_coin_seconds` is re-derived as
`uint128(new_average_coins) * window` ("kill rounding issue") and the
earned value is capped by it. -/
def compute_coin_seconds_earned (window now : Nat) (s : account_statistics_object) :
    Nat × Int :=
  let now_rounded := now / 60 * 60
  let new_average_coins := new_average_coins_of window now_rounded s
  let max_coin_seconds := u128 new_average_coins * window % U128
  let pre := new_coin_seconds_earned_of now_rounded s
  (if max_coin_seconds < pre then max_coin_seconds else pre, new_average_coins)

/-- `account_statistics_object::update_coin_seconds_earned(window, now)`:
no-op when `now_rounded` is `≤` both last-update stamps, otherwise commit
the computed pair and set both stamps to `now_rounded`. -/
def update_coin_seconds_earned (window now : Nat) (s : account_statistics_object) :
    account_statistics_object :=
  let now_rounded := now / 60 * 60
  if now_rounded ≤ s.coin_seconds_earned_last_update ∧
      now_rounded ≤ s.average_coins_last_update then s
  else
    let result := compute_coin_seconds_earned window now_rounded s
    { s with
      coin_seconds_earned := result.1
      coin_seconds_earned_last_update := now_rounded
      average_coins := result.2
      average_coins_last_update := now_rounded }

/-- A balance mutation followed by an `update_coin_seconds_earned` call:
the effective balance is allowed to change arbitrarily between calls. -/
structure balance_event where
  now : Nat
  core_balance : Int
  core_leased_in : Int
  core_leased_out : Int
deriving DecidableEq, Repr

def set_balances (e : balance_event) (s : account_statistics_object) :
    account_statistics_object :=
  { s with
    core_balance := e.core_balance
    core_leased_in := e.core_leased_in
    core_leased_out := e.core_leased_out }

def event_balance (e : balance_event) : Int :=
  e.core_balance + e.core_leased_in - e.core_leased_out

/-- A sequence of balance changes and `update_coin_seconds_earned` calls. -/
def run_updates (window : Nat) : List balance_event → account_statistics_object →
    account_statistics_object
  | [], s => s
  | e :: evs, s =>
      run_updates window evs (update_coin_seconds_earned window e.now (set_balances e s))

/-- The spec's stake invariant: the earned coin-seconds never exceed
`average_coins * window` (together with the `share_type` range facts that
make the statement meaningful). -/
def csea_inv (window : Nat) (s : account_statistics_object) : Prop :=
  0 ≤ s.average_coins ∧ s.average_coins < 2 ^ 63 ∧
    s.coin_seconds_earned ≤ s.average_coins.toNat * window

/-- The authority structure referenced by the membership index:
`account_uid_auths` maps account uids (the `auth.first.uid` of the C++
`flat_map`) to weights, `key_auths` maps public keys to weights.  Public
keys are modelled as opaque `Nat` identifiers. -/
structure authority where
  weight_threshold : Nat
  account_uid_auths : List (Nat × Nat)
  key_auths : List (Nat × Nat)
deriving DecidableEq, Repr

/-- The fields of `account_object` used by `process_fees` and by
`account_member_index`. -/
structure account_object where
  uid : Nat
  registrar : Nat
  referrer : Nat
  lifetime_referrer : Nat
  network_fee_percentage : Nat
  lifetime_referrer_fee_percentage : Nat
  referrer_rewards_percentage : Nat
  owner : authority
  active : authority
  secondary : authority
  memo_key : Nat
deriving DecidableEq, Repr

/-- The arithmetic of one `pay_out_fees(account, core_fee_total, ...)`
invocation, after the referrer rewrite: the five shares plus the two
intermediate quantities, exactly as computed in the lambda inside
`account_statistics_object::process_fees` (`reserveed` keeps the
source's spelling). -/
structure fee_shares where
  network_cut : Int
  reserveed : Int
  accumulated : Int
  lifetime_cut : Int
  referral : Int
  referrer_cut : Int
  registrar_cut : Int
deriving DecidableEq, Repr

def compute_fee_shares (acct : account_object) (reserve_percent_of_fee : Nat)
    (core_fee_total : Int) : fee_shares :=
  let network_cut := cut_fee core_fee_total acct.network_fee_percentage
  let reserveed := cut_fee network_cut reserve_percent_of_fee
  let lifetime_cut := cut_fee core_fee_total acct.lifetime_referrer_fee_percentage
  let referral := core_fee_total - network_cut - lifetime_cut
  let referrer_cut := cut_fee referral acct.referrer_rewards_percentage
  { network_cut := network_cut
    reserveed := reserveed
    accumulated := network_cut - reserveed
    lifetime_cut := lifetime_cut
    referral := referral
    referrer_cut := referrer_cut
    registrar_cut := referral - referrer_cut }

/-- The slice of the `database` state touched by `process_fees`: the
account being processed, its statistics object, the global
`accumulated_fees` of the core asset's dynamic data, and the ordered log
of `deposit_cashback(uid, amount, require_vesting)` calls. -/
structure FeeState where
  account : account_object
  stats : account_statistics_object
  accumulated_fees : Int
  deposits : List (Nat × Int × Bool)
deriving DecidableEq, Repr

/-- The `pay_out_fees` lambda inside
`account_statistics_object::process_fees`.  `basic` is
`fun u => is_basic_account` of the account with uid `u` at
`d.head_block_time()`; the referrer rewrite (`d.modify(account, ...)`)
happens first and all later reads of `account` observe it. -/
def pay_out_fees (basic : Nat → Bool) (reserve_percent_of_fee : Nat)
    (core_fee_total : Int) (require_vesting : Bool) (st : FeeState) : FeeState :=
  let account :=
    if basic st.account.referrer then
      { st.account with referrer := st.account.lifetime_referrer }
    else st.account
  let sh := compute_fee_shares account reserve_percent_of_fee core_fee_total
  { st with
    account := account
    accumulated_fees := st.accumulated_fees + sh.network_cut
    deposits := st.deposits ++
      [(account.lifetime_referrer, sh.lifetime_cut, require_vesting),
       (account.referrer, sh.referrer_cut, require_vesting),
       (account.registrar, sh.registrar_cut, require_vesting)] }

/-- `account_statistics_object::process_fees(a, d)`: pays out both pools
when at least one is positive, then credits `lifetime_fees_paid` and
clears both pools in one mutation of the statistics object. -/
def process_fees (basic : Nat → Bool) (reserve_percent_of_fee : Nat)
    (st : FeeState) : FeeState :=
  if 0 < st.stats.pending_fees ∨ 0 < st.stats.pending_vested_fees then
    let st1 := pay_out_fees basic reserve_percent_of_fee st.stats.pending_fees true st
    let st2 := pay_out_fees basic reserve_percent_of_fee st1.stats.pending_vested_fees false st1
    { st2 with
      stats := { st2.stats with
        lifetime_fees_paid :=
          st2.stats.lifetime_fees_paid + (st2.stats.pending_fees + st2.stats.pending_vested_fees)
        pending_fees := 0
        pending_vested_fees := 0 } }
  else st

/-- `account_member_index::get_account_members`: the uids appearing in
the owner, active and secondary `account_uid_auths`. -/
def get_account_members (a : account_object) : Finset Nat :=
  (a.owner.account_uid_auths.map Prod.fst).toFinset ∪
    (a.active.account_uid_auths.map Prod.fst).toFinset ∪
    (a.secondary.account_uid_auths.map Prod.fst).toFinset

/-- `account_member_index::get_key_members`: the keys of the owner and
active `key_auths` plus the memo key (secondary keys are excluded, as in
the source). -/
def get_key_members (a : account_object) : Finset Nat :=
  (a.owner.key_auths.map Prod.fst).toFinset ∪
    (a.active.key_auths.map Prod.fst).toFinset ∪ {a.memo_key}

/-- `for item in s: map[item].insert(u)` / `.erase(u)` on a reverse
relation represented as a set of `(member, account uid)` pairs. -/
def pairs_with (s : Finset Nat) (u : Nat) : Finset (Nat × Nat) :=
  s.image (fun m => (m, u))

/-- The state of `account_member_index`: the two reverse relations plus
the transient snapshot filled by `about_to_modify`. -/
structure account_member_index where
  account_to_account_memberships : Finset (Nat × Nat)
  account_to_key_memberships : Finset (Nat × Nat)
  before_account_members : Finset Nat
  before_key_members : Finset Nat
deriving DecidableEq

def empty_member_index : account_member_index :=
  { account_to_account_memberships := ∅
    account_to_key_memberships := ∅
    before_account_members := ∅
    before_key_members := ∅ }

/-- `account_member_index::object_inserted`. -/
def object_inserted (a : account_object) (idx : account_member_index) :
    account_member_index :=
  { idx with
    account_to_account_memberships :=
      idx.account_to_account_memberships ∪ pairs_with (get_account_members a) a.uid
    account_to_key_memberships :=
      idx.account_to_key_memberships ∪ pairs_with (get_key_members a) a.uid }

/-- `account_member_index::object_removed`. -/
def object_removed (a : account_object) (idx : account_member_index) :
    account_member_index :=
  { idx with
    account_to_account_memberships :=
      idx.account_to_account_memberships \ pairs_with (get_account_members a) a.uid
    account_to_key_memberships :=
      idx.account_to_key_memberships \ pairs_with (get_key_members a) a.uid }

/-- `account_member_index::about_to_modify`: snapshot the pre-mutation
member sets. -/
def about_to_modify (before : account_object) (idx : account_member_index) :
    account_member_index :=
  { idx with
    before_account_members := get_account_members before
    before_key_members := get_key_members before }

/-- `account_member_index::object_modified`: erase the uid from the
dropped members (`before \ after`) and insert it at the added members
(`after \ before`). -/
def object_modified (after : account_object) (idx : account_member_index) :
    account_member_index :=
  { idx with
    account_to_account_memberships :=
      (idx.account_to_account_memberships \
          pairs_with (idx.before_account_members \ get_account_members after) after.uid) ∪
        pairs_with (get_account_members after \ idx.before_account_members) after.uid
    account_to_key_memberships :=
      (idx.account_to_key_memberships \
          pairs_with (idx.before_key_members \ get_key_members after) after.uid) ∪
        pairs_with (get_key_members after \ idx.before_key_members) after.uid }

/-- A lifecycle event on the account object store; `modify` bundles the
`about_to_modify` / `object_modified` pair required by the index. -/
inductive db_event where
  | insert (a : account_object)
  | modify (uid : Nat) (a2 : account_object)
  | remove (uid : Nat)
deriving DecidableEq, Repr

def db_find (db : List account_object) (u : Nat) : Option account_object :=
  db.find? (fun b => b.uid == u)

/-- One lifecycle event applied to the store of live accounts together
with the index hooks; `none` on an ill-formed event (duplicate insert,
missing object, uid change on modify). -/
def apply_event (st : List account_object × account_member_index) (e : db_event) :
    Option (List account_object × account_member_index) :=
  match e with
  | db_event.insert a =>
    match db_find st.1 a.uid with
    | some _ => none
    | none => some (a :: st.1, object_inserted a st.2)
  | db_event.remove u =>
    match db_find st.1 u with
    | none => none
    | some a => some (st.1.filter (fun b => b.uid != u), object_removed a st.2)
  | db_event.modify u a2 =>
    match db_find st.1 u with
    | none => none
    | some a =>
      if a2.uid = u then
        some (a2 :: st.1.filter (fun b => b.uid != u),
          object_modified a2 (about_to_modify a st.2))
      else none

def run_events : List db_event → (List account_object × account_member_index) →
    Option (List account_object × account_member_index)
  | [], st => some st
  | e :: evs, st =>
    match apply_event st e with
    | none => none
    | some st2 => run_events evs st2

/-- The rebuilt-from-scratch reverse relation for member function `f`
over the live accounts. -/
def rebuild_rel (f : account_object → Finset Nat) :
    List account_object → Finset (Nat × Nat)
  | [] => ∅
  | a :: db => rebuild_rel f db ∪ pairs_with (f a) a.uid

/-- The merge scan in `platform_vote_update_operation::validate`:
walks the sorted `flat_set`s `platform_to_add` / `platform_to_remove`
and returns `true` exactly when the `FC_ASSERT( *itr_add != *itr_remove )`
would raise. -/
def merge_scan_same_platform : List Nat → List Nat → Bool
  | a :: as_, r :: rs =>
    if a = r then true
    else if a < r then merge_scan_same_platform as_ (r :: rs)
    else merge_scan_same_platform (a :: as_) rs
  | _, _ => false
termination_by l1 l2 => l1.length + l2.length

/-! Concrete states and event lists used by the witness theorems. -/

def sample_authority : authority :=
  { weight_threshold := 1, account_uid_auths := [], key_auths := [] }

def sample_account : account_object :=
  { uid := 1, registrar := 2, referrer := 3, lifetime_referrer := 4
    network_fee_percentage := 2000, lifetime_referrer_fee_percentage := 3000
    referrer_rewards_percentage := 5000
    owner := sample_authority, active := sample_authority
    secondary := sample_authority, memo_key := 9 }

def C6_state : FeeState :=
  { account := sample_account
    stats :=
      { core_balance := 0, core_leased_in := 0, core_leased_out := 0
        average_coins := 0, average_coins_last_update := 0
        coin_seconds_earned := 0, coin_seconds_earned_last_update := 0
        pending_fees := 7, pending_vested_fees := 0, lifetime_fees_paid := 3 }
    accumulated_fees := 0
    deposits := [] }

def C7_state : FeeState :=
  { account := sample_account
    stats := C6_state.stats
    accumulated_fees := 0
    deposits := [] }

def C4_state : account_statistics_object :=
  { core_balance := 1000, core_leased_in := 0, core_leased_out := 0
    average_coins := 0, average_coins_last_update := 0
    coin_seconds_earned := 0, coin_seconds_earned_last_update := 0
    pending_fees := 0, pending_vested_fees := 0, lifetime_fees_paid := 0 }

def C4_events : List balance_event :=
  [{ now := 60, core_balance := 1000, core_leased_in := 0, core_leased_out := 0 },
    { now := 180, core_balance := 500, core_leased_in := 0, core_leased_out := 0 }]

def C3W_state : account_statistics_object :=
  { core_balance := 500, core_leased_in := 0, core_leased_out := 0
    average_coins := 200, average_coins_last_update := 60
    coin_seconds_earned := 12000, coin_seconds_earned_last_update := 60
    pending_fees := 0, pending_vested_fees := 0, lifetime_fees_paid := 0 }

def C3_state0 : account_statistics_object :=
  { core_balance := 1000, core_leased_in := 0, core_leased_out := 0
    average_coins := 0, average_coins_last_update := 0
    coin_seconds_earned := 0, coin_seconds_earned_last_update := 0
    pending_fees := 0, pending_vested_fees := 0, lifetime_fees_paid := 0 }

def C3_events1 : List balance_event :=
  [{ now := 120, core_balance := 1000, core_leased_in := 0, core_leased_out := 0 }]

def C3_events2 : List balance_event :=
  [{ now := 120, core_balance := 1000, core_leased_in := 0, core_leased_out := 0 },
    { now := 180, core_balance := 0, core_leased_in := 0, core_leased_out := 0 }]

def C8_state : account_statistics_object :=
  { core_balance := 0, core_leased_in := 0, core_leased_out := 0
    average_coins := 0, average_coins_last_update := 120
    coin_seconds_earned := 0, coin_seconds_earned_last_update := 0
    pending_fees := 0, pending_vested_fees := 0, lifetime_fees_paid := 0 }

/-- Uid keys are unique across the live account objects (the object
database indexes accounts by uid). -/
def uids_nodup (db : List account_object) : Prop :=
  (db.map account_object.uid).Nodup

/-- The refinement invariant: both incrementally maintained reverse
relations coincide with a full rebuild over the live accounts. -/
def index_ok (st : List account_object × account_member_index) : Prop :=
  uids_nodup st.1 ∧
    st.2.account_to_account_memberships = rebuild_rel get_account_members st.1 ∧
    st.2.account_to_key_memberships = rebuild_rel get_key_members st.1

def C2_account1 : account_object :=
  { uid := 1, registrar := 0, referrer := 0, lifetime_referrer := 0
    network_fee_percentage := 0, lifetime_referrer_fee_percentage := 0
    referrer_rewards_percentage := 0
    owner := { weight_threshold := 1, account_uid_auths := [(5, 1)], key_auths := [(100, 1)] }
    active := { weight_threshold := 1, account_uid_auths := [], key_auths := [] }
    secondary := { weight_threshold := 1, account_uid_auths := [(6, 1)], key_auths := [(200, 1)] }
    memo_key := 7 }

def C2_account1b : account_object :=
  { C2_account1 with
    owner := { weight_threshold := 1, account_uid_auths := [(8, 1)], key_auths := [(100, 1)] } }

def C2_account2 : account_object :=
  { uid := 2, registrar := 0, referrer := 0, lifetime_referrer := 0
    network_fee_percentage := 0, lifetime_referrer_fee_percentage := 0
    referrer_rewards_percentage := 0
    owner := { weight_threshold := 1, account_uid_auths := [(5, 1)], key_auths := [(300, 1)] }
    active := { weight_threshold := 1, account_uid_auths := [(1, 1)], key_auths := [] }
    secondary := { weight_threshold := 1, account_uid_auths := [], key_auths := [] }
    memo_key := 9 }

def C2_events : List db_event :=
  [db_event.insert C2_account1, db_event.insert C2_account2,
    db_event.modify 1 C2_account1b, db_event.remove 2]

def C2_db : List account_object := [C2_account1b]

def C2_idx : account_member_index :=
  object_removed C2_account2
    (object_modified C2_account1b (about_to_modify C2_account1
      (object_inserted C2_account2 (object_inserted C2_account1 empty_member_index))))

lemma u128_eq_toNat (x : Int) (h0 : 0 ≤ x) (h1 : x < 2 ^ 63) : u128 x = x.toNat := by
  unfold u128 U128
  rw [Int.emod_eq_of_lt h0 (by push_cast; omega)]

/-- In the `share_type` range and with a percentage `≤ 100%`, `cut_fee`
computes the floor of `a * p / 10000` with no wraparound in any of its
intermediate conversions. -/
lemma cut_fee_eq (a : Int) (p : Nat) (h0 : 0 ≤ a) (h1 : a < 2 ^ 63)
    (hp : p ≤ GRAPHENE_100_PERCENT) :
    cut_fee a p = ((a.toNat * p / GRAPHENE_100_PERCENT : Nat) : Int) := by
  simp only [GRAPHENE_100_PERCENT] at *
  unfold cut_fee
  by_cases hz : a = 0 ∨ p = 0
  · rw [if_pos hz]
    rcases hz with hz | hz <;> simp [hz, GRAPHENE_100_PERCENT]
  · rw [if_neg hz]
    push_neg at hz
    have ha63 : a.toNat < 2 ^ 63 := by omega
    have hua : u128 a = a.toNat := u128_eq_toNat a h0 h1
    by_cases hfull : p = GRAPHENE_100_PERCENT
    · simp only [GRAPHENE_100_PERCENT] at hfull
      rw [if_pos (by simpa [GRAPHENE_100_PERCENT] using hfull), hfull,
        Nat.mul_div_cancel _ (by norm_num)]
      omega
    · rw [if_neg (by simpa [GRAPHENE_100_PERCENT] using hfull)]
      have hmul : a.toNat * p < U128 := by
        calc a.toNat * p ≤ a.toNat * 10000 := Nat.mul_le_mul_left _ hp
          _ < 2 ^ 63 * 10000 := by
              exact (Nat.mul_lt_mul_right (by norm_num)).mpr ha63
          _ < U128 := by norm_num [U128]
      have hq : a.toNat * p / 10000 < 2 ^ 63 := by
        calc a.toNat * p / 10000 ≤ a.toNat * 10000 / 10000 :=
              Nat.div_le_div_right (Nat.mul_le_mul_left _ hp)
          _ = a.toNat := Nat.mul_div_cancel _ (by norm_num)
          _ < 2 ^ 63 := ha63
      simp only [GRAPHENE_100_PERCENT]
      rw [hua, Nat.mod_eq_of_lt hmul]
      unfold to_uint64 uint64_to_int64
      rw [Nat.mod_eq_of_lt (lt_trans hq (by norm_num [U64]))]
      rw [if_pos hq]

/-- C5: `cut_fee` is zero on a zero amount or percentage, is the identity
at `GRAPHENE_100_PERCENT`, stays within `[0, amount]`, and in general is
the exact floor of `amount * percentage / GRAPHENE_100_PERCENT` (no
wraparound in the 128-bit intermediate). -/
theorem C5_cut_fee_contract (a : Int) (p : Nat) (h0 : 0 ≤ a) (h1 : a < 2 ^ 63)
    (hp : p ≤ GRAPHENE_100_PERCENT) :
    cut_fee a 0 = 0 ∧ cut_fee 0 p = 0 ∧ cut_fee a GRAPHENE_100_PERCENT = a ∧
      0 ≤ cut_fee a p ∧ cut_fee a p ≤ a ∧
      cut_fee a p = a * (p : Int) / (GRAPHENE_100_PERCENT : Int) := by
  refine ⟨by simp [cut_fee], by simp [cut_fee], ?_, ?_, ?_, ?_⟩
  · rw [cut_fee_eq a GRAPHENE_100_PERCENT h0 h1 le_rfl,
      Nat.mul_div_cancel _ (by norm_num [GRAPHENE_100_PERCENT])]
    omega
  · rw [cut_fee_eq a p h0 h1 hp]; positivity
  · rw [cut_fee_eq a p h0 h1 hp]
    have hq : a.toNat * p / GRAPHENE_100_PERCENT ≤ a.toNat := by
      calc a.toNat * p / GRAPHENE_100_PERCENT
          ≤ a.toNat * GRAPHENE_100_PERCENT / GRAPHENE_100_PERCENT :=
            Nat.div_le_div_right (Nat.mul_le_mul_left _ hp)
        _ = a.toNat := Nat.mul_div_cancel _ (by norm_num [GRAPHENE_100_PERCENT])
    omega
  · rw [cut_fee_eq a p h0 h1 hp, Int.natCast_div]
    push_cast [Int.toNat_of_nonneg h0]
    rfl

theorem C5_cut_fee_contract_witness :
    cut_fee 12345 0 = 0 ∧ cut_fee 0 345 = 0 ∧
      cut_fee 12345 GRAPHENE_100_PERCENT = 12345 ∧
      0 ≤ cut_fee 12345 345 ∧ cut_fee 12345 345 ≤ 12345 ∧
      cut_fee 12345 345 = 12345 * (345 : Int) / (GRAPHENE_100_PERCENT : Int) :=
  C5_cut_fee_contract 12345 345 (by norm_num) (by norm_num) (by norm_num [GRAPHENE_100_PERCENT])

/-- C9: the two complementary cuts of the same amount recombine to the
amount up to at most one unit of floor-rounding slack. -/
theorem C9_complementary_cuts (a : Int) (p : Nat) (h0 : 0 ≤ a) (h1 : a < 2 ^ 63)
    (hp : p ≤ GRAPHENE_100_PERCENT) :
    a - 1 ≤ cut_fee a p + cut_fee a (GRAPHENE_100_PERCENT - p) ∧
      cut_fee a p + cut_fee a (GRAPHENE_100_PERCENT - p) ≤ a := by
  rw [cut_fee_eq a p h0 h1 hp, cut_fee_eq a (GRAPHENE_100_PERCENT - p) h0 h1 (Nat.sub_le _ _)]
  simp only [GRAPHENE_100_PERCENT] at *
  have hxy : a.toNat * p + a.toNat * (10000 - p) = a.toNat * 10000 := by
    rw [← Nat.mul_add]
    congr 1
    omega
  have e1 := Nat.div_add_mod (a.toNat * p) 10000
  have e2 := Nat.div_add_mod (a.toNat * (10000 - p)) 10000
  have m1 : a.toNat * p % 10000 < 10000 := Nat.mod_lt _ (by norm_num)
  have m2 : a.toNat * (10000 - p) % 10000 < 10000 := Nat.mod_lt _ (by norm_num)
  constructor <;> omega

theorem C9_complementary_cuts_witness :
    (12345 : Int) - 1 ≤ cut_fee 12345 345 + cut_fee 12345 (GRAPHENE_100_PERCENT - 345) ∧
      cut_fee 12345 345 + cut_fee 12345 (GRAPHENE_100_PERCENT - 345) ≤ 12345 :=
  C9_complementary_cuts 12345 345 (by norm_num) (by norm_num)
    (by norm_num [GRAPHENE_100_PERCENT])

/-- C1: the five shares computed by `pay_out_fees` satisfy the closing
conservation assertion
`referrer_cut + registrar_cut + accumulated + reserveed + lifetime_cut == core_fee_total`
exactly, for every positive pool total and every percentage
configuration. -/
theorem C1_fee_split_conservation (acct : account_object) (rp : Nat) (total : Int)
    (ht : 0 < total)
    (h1 : acct.network_fee_percentage ≤ GRAPHENE_100_PERCENT)
    (h2 : acct.lifetime_referrer_fee_percentage ≤ GRAPHENE_100_PERCENT)
    (h3 : acct.referrer_rewards_percentage ≤ GRAPHENE_100_PERCENT)
    (h4 : rp ≤ GRAPHENE_100_PERCENT) :
    (compute_fee_shares acct rp total).referrer_cut +
        (compute_fee_shares acct rp total).registrar_cut +
        (compute_fee_shares acct rp total).accumulated +
        (compute_fee_shares acct rp total).reserveed +
        (compute_fee_shares acct rp total).lifetime_cut = total := by
  simp only [compute_fee_shares]
  ring

theorem C1_fee_split_conservation_witness :
    (compute_fee_shares sample_account 1000 100).referrer_cut +
        (compute_fee_shares sample_account 1000 100).registrar_cut +
        (compute_fee_shares sample_account 1000 100).accumulated +
        (compute_fee_shares sample_account 1000 100).reserveed +
        (compute_fee_shares sample_account 1000 100).lifetime_cut = 100 :=
  C1_fee_split_conservation sample_account 1000 100 (by norm_num) (by decide)
    (by decide) (by decide) (by decide)

lemma pay_out_fees_stats (basic : Nat → Bool) (rp : Nat) (total : Int)
    (rv : Bool) (st : FeeState) : (pay_out_fees basic rp total rv st).stats = st.stats := rfl

lemma process_fees_noop (basic : Nat → Bool) (rp : Nat) (st : FeeState)
    (h1 : st.stats.pending_fees = 0) (h2 : st.stats.pending_vested_fees = 0) :
    process_fees basic rp st = st := by
  unfold process_fees
  rw [if_neg (by omega)]

/-- C6: `process_fees` is a no-op on zero pools; on a nonzero pool it
adds both pools to `lifetime_fees_paid`, zeroes both pools in the same
mutation, and an immediately repeated call is a no-op. -/
theorem C6_process_fees_pools (basic : Nat → Bool) (rp : Nat) (st : FeeState) :
    (st.stats.pending_fees = 0 ∧ st.stats.pending_vested_fees = 0 →
      process_fees basic rp st = st) ∧
    (0 < st.stats.pending_fees ∨ 0 < st.stats.pending_vested_fees →
      (process_fees basic rp st).stats.lifetime_fees_paid =
          st.stats.lifetime_fees_paid + st.stats.pending_fees +
            st.stats.pending_vested_fees ∧
      (process_fees basic rp st).stats.pending_fees = 0 ∧
      (process_fees basic rp st).stats.pending_vested_fees = 0 ∧
      process_fees basic rp (process_fees basic rp st) = process_fees basic rp st) := by
  constructor
  · rintro ⟨h1, h2⟩
    exact process_fees_noop basic rp st h1 h2
  · intro h
    have hfields : (process_fees basic rp st).stats.lifetime_fees_paid =
        st.stats.lifetime_fees_paid + st.stats.pending_fees +
          st.stats.pending_vested_fees ∧
        (process_fees basic rp st).stats.pending_fees = 0 ∧
        (process_fees basic rp st).stats.pending_vested_fees = 0 := by
      unfold process_fees
      rw [if_pos h]
      simp only [pay_out_fees_stats]
      refine ⟨by ring, by trivial, by trivial⟩
    exact ⟨hfields.1, hfields.2.1, hfields.2.2,
      process_fees_noop basic rp _ hfields.2.1 hfields.2.2⟩

theorem C6_process_fees_pools_witness :
    (C6_state.stats.pending_fees = 0 ∧ C6_state.stats.pending_vested_fees = 0 →
      process_fees (fun _ => false) 1000 C6_state = C6_state) ∧
    (0 < C6_state.stats.pending_fees ∨ 0 < C6_state.stats.pending_vested_fees →
      (process_fees (fun _ => false) 1000 C6_state).stats.lifetime_fees_paid =
          C6_state.stats.lifetime_fees_paid + C6_state.stats.pending_fees +
            C6_state.stats.pending_vested_fees ∧
      (process_fees (fun _ => false) 1000 C6_state).stats.pending_fees = 0 ∧
      (process_fees (fun _ => false) 1000 C6_state).stats.pending_vested_fees = 0 ∧
      process_fees (fun _ => false) 1000 (process_fees (fun _ => false) 1000 C6_state) =
        process_fees (fun _ => false) 1000 C6_state) :=
  C6_process_fees_pools (fun _ => false) 1000 C6_state

/-- C7: when the (sole) eligibility check `is_basic_account(referrer)`
returns true, `pay_out_fees` first rewrites the account's referrer to its
lifetime referrer, the shares are computed on the rewritten account, the
referrer-cut deposit goes to the rewritten referrer, and the outcome
depends on the eligibility predicate only through its value at the
original referrer (in particular the registrar is never checked). -/
theorem C7_referrer_demotion (basic basic2 : Nat → Bool) (rp : Nat) (total : Int)
    (rv : Bool) (st : FeeState) :
    (basic st.account.referrer = true →
      (pay_out_fees basic rp total rv st).account =
          { st.account with referrer := st.account.lifetime_referrer } ∧
      (pay_out_fees basic rp total rv st).deposits =
        st.deposits ++
          [(st.account.lifetime_referrer,
              (compute_fee_shares { st.account with referrer := st.account.lifetime_referrer }
                rp total).lifetime_cut, rv),
            (st.account.lifetime_referrer,
              (compute_fee_shares { st.account with referrer := st.account.lifetime_referrer }
                rp total).referrer_cut, rv),
            (st.account.registrar,
              (compute_fee_shares { st.account with referrer := st.account.lifetime_referrer }
                rp total).registrar_cut, rv)]) ∧
    (basic st.account.referrer = basic2 st.account.referrer →
      pay_out_fees basic rp total rv st = pay_out_fees basic2 rp total rv st) := by
  constructor
  · intro hb
    unfold pay_out_fees
    rw [if_pos hb]
    refine ⟨rfl, ?_⟩
    rfl
  · intro hb
    unfold pay_out_fees
    rw [hb]

theorem C7_referrer_demotion_witness :
    ((fun _ => true) C7_state.account.referrer = true →
      (pay_out_fees (fun _ => true) 1000 100 true C7_state).account =
          { C7_state.account with referrer := C7_state.account.lifetime_referrer } ∧
      (pay_out_fees (fun _ => true) 1000 100 true C7_state).deposits =
        C7_state.deposits ++
          [(C7_state.account.lifetime_referrer,
              (compute_fee_shares
                { C7_state.account with referrer := C7_state.account.lifetime_referrer }
                1000 100).lifetime_cut, true),
            (C7_state.account.lifetime_referrer,
              (compute_fee_shares
                { C7_state.account with referrer := C7_state.account.lifetime_referrer }
                1000 100).referrer_cut, true),
            (C7_state.account.registrar,
              (compute_fee_shares
                { C7_state.account with referrer := C7_state.account.lifetime_referrer }
                1000 100).registrar_cut, true)]) ∧
    ((fun _ => true) C7_state.account.referrer = (fun _ => true) C7_state.account.referrer →
      pay_out_fees (fun _ => true) 1000 100 true C7_state =
        pay_out_fees (fun _ => true) 1000 100 true C7_state) :=
  C7_referrer_demotion (fun _ => true) (fun _ => true) 1000 100 true C7_state
example : merge_scan_same_platform [1, 3] [2, 4] = false := by
  simp [merge_scan_same_platform]

lemma round60_idem (now : Nat) : now / 60 * 60 / 60 * 60 = now / 60 * 60 := by
  rw [Nat.mul_div_cancel _ (by norm_num)]

lemma u128_mul_window_eq (v : Int) (window : Nat) (hw : window < U64)
    (hv0 : 0 ≤ v) (hv1 : v < 2 ^ 63) :
    u128 v * window % U128 = v.toNat * window := by
  rw [u128_eq_toNat v hv0 hv1]
  refine Nat.mod_eq_of_lt ?_
  calc v.toNat * window < 2 ^ 63 * U64 :=
      mul_lt_mul'' (by omega) hw (Nat.zero_le _) (Nat.zero_le _)
    _ ≤ U128 := by norm_num [U64, U128]

lemma blend_sum_le (w d A E : Nat) (hdw : d ≤ w) :
    A * (w - d) + E * d ≤ max A E * w := by
  calc A * (w - d) + E * d ≤ max A E * (w - d) + max A E * d :=
      Nat.add_le_add (Nat.mul_le_mul_right _ (le_max_left A E))
        (Nat.mul_le_mul_right _ (le_max_right A E))
    _ = max A E * w := by rw [← Nat.mul_add]; congr 1; omega

lemma blend_le_max (w d A E : Nat) (hdw : d ≤ w) (hw0 : 0 < w) :
    (A * (w - d) + E * d) / w ≤ max A E := by
  calc (A * (w - d) + E * d) / w ≤ max A E * w / w :=
      Nat.div_le_div_right (blend_sum_le w d A E hdw)
    _ = max A E := Nat.mul_div_cancel _ hw0

lemma new_average_unchanged (window nr : Nat) (s : account_statistics_object)
    (h1 : nr ≤ s.average_coins_last_update) :
    new_average_coins_of window nr s = s.average_coins := by
  simp only [new_average_coins_of]
  rw [if_pos h1]

lemma new_average_reset (window nr : Nat) (s : account_statistics_object)
    (h1 : ¬ nr ≤ s.average_coins_last_update)
    (h2 : window ≤ nr - s.average_coins_last_update) :
    new_average_coins_of window nr s = effective_balance s := by
  simp only [new_average_coins_of]
  rw [if_neg h1, if_pos h2]

/-- In the windowed-blend branch, all the 128-bit intermediates stay
below `2 ^ 128` and the 64-bit truncations are lossless, so the new
average is the exact floor of the blended coin-seconds over the window. -/
lemma new_average_blend (window nr : Nat) (s : account_statistics_object)
    (hw : window < U64)
    (ha0 : 0 ≤ s.average_coins) (ha1 : s.average_coins < 2 ^ 63)
    (he0 : 0 ≤ effective_balance s) (he1 : effective_balance s < 2 ^ 63)
    (h1 : ¬ nr ≤ s.average_coins_last_update)
    (h2 : ¬ window ≤ nr - s.average_coins_last_update) :
    new_average_coins_of window nr s =
      (((s.average_coins.toNat * (window - (nr - s.average_coins_last_update)) +
          (effective_balance s).toNat * (nr - s.average_coins_last_update)) / window : Nat) :
        Int) := by
  simp only [new_average_coins_of]
  rw [if_neg h1, if_neg h2]
  rw [u128_eq_toNat _ ha0 ha1, u128_eq_toNat _ he0 he1]
  set d := nr - s.average_coins_last_update with hd
  set A := s.average_coins.toNat with hA
  set E := (effective_balance s).toNat with hE
  have hdw : d < window := by omega
  have hw0 : 0 < window := by omega
  have hM : max A E < 2 ^ 63 := max_lt (by omega) (by omega)
  have hMw : max A E * window < U128 := by
    calc max A E * window < 2 ^ 63 * U64 :=
        mul_lt_mul'' hM hw (Nat.zero_le _) (Nat.zero_le _)
      _ ≤ U128 := by norm_num [U64, U128]
  have hsum : A * (window - d) + E * d < U128 :=
    lt_of_le_of_lt (blend_sum_le window d A E (le_of_lt hdw)) hMw
  have hb1 : A * (window - d) < U128 := by omega
  have hb2 : E * d < U128 := by omega
  rw [Nat.mod_eq_of_lt hb1, Nat.mod_eq_of_lt hb2, Nat.mod_eq_of_lt hsum]
  have hq : (A * (window - d) + E * d) / window ≤ max A E :=
    blend_le_max window d A E (le_of_lt hdw) hw0
  have hq63 : (A * (window - d) + E * d) / window < 2 ^ 63 := by omega
  unfold to_uint64 uint64_to_int64
  rw [Nat.mod_eq_of_lt (lt_trans hq63 (by norm_num [U64]))]
  rw [if_pos hq63]

lemma new_average_coins_bounds (window nr : Nat) (s : account_statistics_object)
    (hw : window < U64)
    (ha0 : 0 ≤ s.average_coins) (ha1 : s.average_coins < 2 ^ 63)
    (he0 : 0 ≤ effective_balance s) (he1 : effective_balance s < 2 ^ 63) :
    0 ≤ new_average_coins_of window nr s ∧ new_average_coins_of window nr s < 2 ^ 63 := by
  by_cases h1 : nr ≤ s.average_coins_last_update
  · rw [new_average_unchanged window nr s h1]
    exact ⟨ha0, ha1⟩
  · by_cases h2 : window ≤ nr - s.average_coins_last_update
    · rw [new_average_reset window nr s h1 h2]
      exact ⟨he0, he1⟩
    · rw [new_average_blend window nr s hw ha0 ha1 he0 he1 h1 h2]
      have hq := blend_le_max window (nr - s.average_coins_last_update)
        s.average_coins.toNat (effective_balance s).toNat (by omega) (by omega)
      have hM : max s.average_coins.toNat (effective_balance s).toNat < 2 ^ 63 :=
        max_lt (by omega) (by omega)
      have hq63 := lt_of_le_of_lt hq hM
      exact ⟨Int.natCast_nonneg _, by exact_mod_cast hq63⟩

lemma new_average_coins_mono (window nr : Nat) (s : account_statistics_object)
    (hw : window < U64)
    (ha0 : 0 ≤ s.average_coins) (ha1 : s.average_coins < 2 ^ 63)
    (he0 : 0 ≤ effective_balance s) (he1 : effective_balance s < 2 ^ 63)
    (hm : s.average_coins ≤ effective_balance s) :
    s.average_coins ≤ new_average_coins_of window nr s := by
  by_cases h1 : nr ≤ s.average_coins_last_update
  · rw [new_average_unchanged window nr s h1]
  · by_cases h2 : window ≤ nr - s.average_coins_last_update
    · rw [new_average_reset window nr s h1 h2]
      exact hm
    · rw [new_average_blend window nr s hw ha0 ha1 he0 he1 h1 h2]
      set d := nr - s.average_coins_last_update with hd
      set A := s.average_coins.toNat with hA
      set E := (effective_balance s).toNat with hE
      have hw0 : 0 < window := by omega
      have hAE : A ≤ E := by omega
      have h3 : A * window ≤ A * (window - d) + E * d := by
        have h4 : A * window = A * (window - d) + A * d := by
          rw [← Nat.mul_add]
          congr 1
          omega
        rw [h4]
        exact Nat.add_le_add_left (Nat.mul_le_mul_right d hAE) _
      have key : A ≤ (A * (window - d) + E * d) / window := by
        calc A = A * window / window := (Nat.mul_div_cancel _ hw0).symm
          _ ≤ (A * (window - d) + E * d) / window := Nat.div_le_div_right h3
      have hcast : s.average_coins = (A : Int) := by omega
      rw [hcast]
      exact_mod_cast key

lemma compute_snd_eq (window now : Nat) (s : account_statistics_object) :
    (compute_coin_seconds_earned window now s).2 =
      new_average_coins_of window (now / 60 * 60) s := rfl

lemma compute_fst_eq (window now : Nat) (s : account_statistics_object) :
    (compute_coin_seconds_earned window now s).1 =
      if u128 (new_average_coins_of window (now / 60 * 60) s) * window % U128 <
          new_coin_seconds_earned_of (now / 60 * 60) s
      then u128 (new_average_coins_of window (now / 60 * 60) s) * window % U128
      else new_coin_seconds_earned_of (now / 60 * 60) s := rfl

/-- The committed earned value never exceeds the re-derived ceiling
`new_average_coins * window`. -/
lemma compute_fst_le (window now : Nat) (s : account_statistics_object)
    (hw : window < U64)
    (ha0 : 0 ≤ s.average_coins) (ha1 : s.average_coins < 2 ^ 63)
    (he0 : 0 ≤ effective_balance s) (he1 : effective_balance s < 2 ^ 63) :
    (compute_coin_seconds_earned window now s).1 ≤
      (new_average_coins_of window (now / 60 * 60) s).toNat * window := by
  obtain ⟨hv0, hv1⟩ :=
    new_average_coins_bounds window (now / 60 * 60) s hw ha0 ha1 he0 he1
  rw [compute_fst_eq, u128_mul_window_eq _ window hw hv0 hv1]
  split_ifs with hcmp
  · exact le_rfl
  · omega

lemma update_noop_eq (window now : Nat) (s : account_statistics_object)
    (h : now / 60 * 60 ≤ s.coin_seconds_earned_last_update ∧
        now / 60 * 60 ≤ s.average_coins_last_update) :
    update_coin_seconds_earned window now s = s := by
  unfold update_coin_seconds_earned
  rw [if_pos h]

lemma update_commit_eq (window now : Nat) (s : account_statistics_object)
    (h : ¬(now / 60 * 60 ≤ s.coin_seconds_earned_last_update ∧
        now / 60 * 60 ≤ s.average_coins_last_update)) :
    update_coin_seconds_earned window now s =
      { s with
        coin_seconds_earned := (compute_coin_seconds_earned window (now / 60 * 60) s).1
        coin_seconds_earned_last_update := now / 60 * 60
        average_coins := (compute_coin_seconds_earned window (now / 60 * 60) s).2
        average_coins_last_update := now / 60 * 60 } := by
  unfold update_coin_seconds_earned
  rw [if_neg h]

/-- One `update_coin_seconds_earned` call preserves (and, when it
commits, re-establishes from scratch) the stake invariant. -/
lemma update_csea_inv (window now : Nat) (s : account_statistics_object)
    (hw : window < U64)
    (he0 : 0 ≤ effective_balance s) (he1 : effective_balance s < 2 ^ 63)
    (hs : csea_inv window s) :
    csea_inv window (update_coin_seconds_earned window now s) := by
  obtain ⟨ha0, ha1, hcap⟩ := hs
  by_cases h : now / 60 * 60 ≤ s.coin_seconds_earned_last_update ∧
      now / 60 * 60 ≤ s.average_coins_last_update
  · rw [update_noop_eq window now s h]
    exact ⟨ha0, ha1, hcap⟩
  · rw [update_commit_eq window now s h]
    have hr := round60_idem now
    refine ⟨?_, ?_, ?_⟩
    · show 0 ≤ (compute_coin_seconds_earned window (now / 60 * 60) s).2
      rw [compute_snd_eq, hr]
      exact (new_average_coins_bounds window (now / 60 * 60) s hw ha0 ha1 he0 he1).1
    · show (compute_coin_seconds_earned window (now / 60 * 60) s).2 < 2 ^ 63
      rw [compute_snd_eq, hr]
      exact (new_average_coins_bounds window (now / 60 * 60) s hw ha0 ha1 he0 he1).2
    · show (compute_coin_seconds_earned window (now / 60 * 60) s).1 ≤
        (compute_coin_seconds_earned window (now / 60 * 60) s).2.toNat * window
      rw [compute_snd_eq, hr]
      have := compute_fst_le window (now / 60 * 60) s hw ha0 ha1 he0 he1
      rwa [hr] at this

/-- C4: the predicate `coin_seconds_earned ≤ average_coins * window` is
an invariant of arbitrary sequences of balance changes and
`update_coin_seconds_earned` calls with non-decreasing timestamps. -/
theorem C4_earned_le_average_window (window : Nat) (evs : List balance_event)
    (s : account_statistics_object) (hw0 : 0 < window) (hw : window < U64)
    (hs : csea_inv window s)
    (hev : ∀ e ∈ evs, 0 ≤ event_balance e ∧ event_balance e < 2 ^ 63)
    (hchron : List.Chain' (· ≤ ·) (evs.map balance_event.now)) :
    csea_inv window (run_updates window evs s) := by
  induction evs generalizing s with
  | nil => exact hs
  | cons e evs ih =>
    simp only [run_updates]
    apply ih
    · apply update_csea_inv window e.now (set_balances e s) hw
      · exact (hev e (by simp)).1
      · exact (hev e (by simp)).2
      · exact hs
    · intro x hx
      exact hev x (List.mem_cons_of_mem _ hx)
    · exact hchron.tail

theorem C4_earned_le_average_window_witness :
    csea_inv 60 (run_updates 60 C4_events C4_state) :=
  C4_earned_le_average_window 60 C4_events C4_state (by norm_num)
    (by norm_num [U64]) (by unfold csea_inv; decide) (by decide)
    (by simp [C4_events])

/-- C3 (amended): one `update_coin_seconds_earned` call cannot decrease
`coin_seconds_earned` provided the effective balance at the call is at
least the stored `average_coins`; a balance that has fallen below the
moving average can pull the committed value down to the new ceiling
`average_coins * window`. -/
theorem C3_amended_earned_monotone (window now : Nat) (s : account_statistics_object)
    (hw : window < U64) (hnow : now < 2 ^ 32)
    (he0 : 0 ≤ effective_balance s) (he1 : effective_balance s < 2 ^ 63)
    (hm : s.average_coins ≤ effective_balance s)
    (hs : csea_inv window s) :
    s.coin_seconds_earned ≤ (update_coin_seconds_earned window now s).coin_seconds_earned := by
  obtain ⟨ha0, ha1, hcap⟩ := hs
  by_cases h : now / 60 * 60 ≤ s.coin_seconds_earned_last_update ∧
      now / 60 * 60 ≤ s.average_coins_last_update
  · rw [update_noop_eq window now s h]
  · rw [update_commit_eq window now s h]
    show s.coin_seconds_earned ≤ (compute_coin_seconds_earned window (now / 60 * 60) s).1
    rw [compute_fst_eq, round60_idem now]
    set nr := now / 60 * 60 with hnr
    obtain ⟨hv0, hv1⟩ := new_average_coins_bounds window nr s hw ha0 ha1 he0 he1
    have hvm := new_average_coins_mono window nr s hw ha0 ha1 he0 he1 hm
    rw [u128_mul_window_eq _ window hw hv0 hv1]
    have hmaxge : s.coin_seconds_earned ≤
        (new_average_coins_of window nr s).toNat * window := by
      calc s.coin_seconds_earned ≤ s.average_coins.toNat * window := hcap
        _ ≤ (new_average_coins_of window nr s).toNat * window :=
          Nat.mul_le_mul_right window (by omega)
    have hprege : s.coin_seconds_earned ≤ new_coin_seconds_earned_of nr s := by
      unfold new_coin_seconds_earned_of
      split_ifs with hc
      · exact le_rfl
      · rw [u128_eq_toNat _ he0 he1]
        have hd : nr - s.coin_seconds_earned_last_update < 2 ^ 32 := by
          have := Nat.div_mul_le_self now 60
          omega
        have hb : (effective_balance s).toNat *
            (nr - s.coin_seconds_earned_last_update) < 2 ^ 95 := by
          calc (effective_balance s).toNat * (nr - s.coin_seconds_earned_last_update)
              < 2 ^ 63 * 2 ^ 32 :=
                mul_lt_mul'' (by omega) hd (Nat.zero_le _) (Nat.zero_le _)
            _ = 2 ^ 95 := by norm_num
        have hearn : s.coin_seconds_earned < 2 ^ 127 := by
          have h127 : s.average_coins.toNat * window < 2 ^ 127 := by
            calc s.average_coins.toNat * window < 2 ^ 63 * U64 :=
                mul_lt_mul'' (by omega) hw (Nat.zero_le _) (Nat.zero_le _)
              _ = 2 ^ 127 := by norm_num [U64]
          omega
        have hc1 : (2 : Nat) ^ 127 + 2 ^ 95 ≤ U128 := by norm_num [U128]
        have hbm : (effective_balance s).toNat *
            (nr - s.coin_seconds_earned_last_update) % U128 =
            (effective_balance s).toNat * (nr - s.coin_seconds_earned_last_update) :=
          Nat.mod_eq_of_lt (by omega)
        rw [hbm, Nat.mod_eq_of_lt (by omega)]
        exact Nat.le_add_right _ _
    split_ifs with hcmp
    · exact hmaxge
    · exact hprege

theorem C3_amended_earned_monotone_witness :
    C3W_state.coin_seconds_earned ≤
      (update_coin_seconds_earned 100 180 C3W_state).coin_seconds_earned :=
  C3_amended_earned_monotone 100 180 C3W_state (by norm_num [U64]) (by norm_num)
    (by decide) (by decide) (by decide) (by unfold csea_inv; decide)

/-- C3 is false as stated: with window 120, after a full window at
balance 1000 the earned value is 120000; dropping the balance to 0 and
updating one minute later caps the earned value at the new ceiling
`500 * 120 = 60000`, a strict decrease, although the two timestamps
`120 ≤ 180` are non-decreasing. -/
theorem C3_earned_can_decrease_cex :
    List.Chain' (· ≤ ·) (C3_events2.map balance_event.now) ∧
      (run_updates 120 C3_events2 C3_state0).coin_seconds_earned <
        (run_updates 120 C3_events1 C3_state0).coin_seconds_earned :=
  ⟨by simp [C3_events2], by decide⟩

/-- C8 is false as stated: its "i.e." expansion claims a no-op whenever
`now_rounded` is `≤` either timestamp, but with
`coin_seconds_earned_last_update = 0`, `average_coins_last_update = 120`
and `now = 60` the disjunction holds while the call commits (it moves
both timestamps to 60). -/
theorem C8_noop_disjunction_cex :
    (60 / 60 * 60 ≤ C8_state.coin_seconds_earned_last_update ∨
        60 / 60 * 60 ≤ C8_state.average_coins_last_update) ∧
      update_coin_seconds_earned 120 60 C8_state ≠ C8_state := by
  decide

/-- C8 (amended): `update_coin_seconds_earned` is a no-op exactly when
`now_rounded` is `≤` BOTH last-update timestamps; otherwise it commits
the computed pair and sets both timestamps to `now_rounded`. -/
theorem C8_noop_characterization (window now : Nat) (s : account_statistics_object) :
    (now / 60 * 60 ≤ s.coin_seconds_earned_last_update ∧
        now / 60 * 60 ≤ s.average_coins_last_update →
      update_coin_seconds_earned window now s = s) ∧
    (update_coin_seconds_earned window now s = s →
      now / 60 * 60 ≤ s.coin_seconds_earned_last_update ∧
        now / 60 * 60 ≤ s.average_coins_last_update) ∧
    (¬(now / 60 * 60 ≤ s.coin_seconds_earned_last_update ∧
        now / 60 * 60 ≤ s.average_coins_last_update) →
      update_coin_seconds_earned window now s =
        { s with
          coin_seconds_earned := (compute_coin_seconds_earned window (now / 60 * 60) s).1
          coin_seconds_earned_last_update := now / 60 * 60
          average_coins := (compute_coin_seconds_earned window (now / 60 * 60) s).2
          average_coins_last_update := now / 60 * 60 }) := by
  refine ⟨update_noop_eq window now s, ?_, update_commit_eq window now s⟩
  intro he
  by_contra h
  have hc := update_commit_eq window now s h
  rw [he] at hc
  have h1 := congrArg account_statistics_object.coin_seconds_earned_last_update hc
  have h2 := congrArg account_statistics_object.average_coins_last_update hc
  simp only at h1 h2
  exact h ⟨by omega, by omega⟩

/-- C10: on sorted duplicate-free uid sequences (the `flat_set`
iteration orders of `platform_to_add` / `platform_to_remove`), the single
merge scan in `platform_vote_update_operation::validate` raises the
"Can not add and remove same platform" assertion iff the two sets have a
common element. -/
theorem C10_merge_scan_detects_intersection (A R : List Nat) :
    List.Pairwise (· < ·) A → List.Pairwise (· < ·) R →
    (merge_scan_same_platform A R = true ↔ ∃ x, x ∈ A ∧ x ∈ R) := by
  induction A, R using merge_scan_same_platform.induct with
  | case1 t1 x t2 =>
    intro hA hR
    constructor
    · intro _
      exact ⟨x, List.mem_cons_self _ _, List.mem_cons_self _ _⟩
    · intro _
      simp [merge_scan_same_platform]
  | case2 a as_ r rs h h2 ih =>
    intro hA hR
    rw [show merge_scan_same_platform (a :: as_) (r :: rs) =
        merge_scan_same_platform as_ (r :: rs) from by
      simp [merge_scan_same_platform, h, h2]]
    rw [ih hA.of_cons hR]
    constructor
    · rintro ⟨x, hx1, hx2⟩
      exact ⟨x, List.mem_cons_of_mem _ hx1, hx2⟩
    · rintro ⟨x, hx1, hx2⟩
      rcases List.mem_cons.mp hx1 with rfl | hx1
      · rcases List.mem_cons.mp hx2 with heq | hx2
        · exact absurd heq h
        · have := (List.pairwise_cons.mp hR).1 _ hx2
          omega
      · exact ⟨x, hx1, hx2⟩
  | case3 a as_ r rs h h2 ih =>
    intro hA hR
    rw [show merge_scan_same_platform (a :: as_) (r :: rs) =
        merge_scan_same_platform (a :: as_) rs from by
      simp [merge_scan_same_platform, h, h2]]
    rw [ih hA hR.of_cons]
    constructor
    · rintro ⟨x, hx1, hx2⟩
      exact ⟨x, hx1, List.mem_cons_of_mem _ hx2⟩
    · rintro ⟨x, hx1, hx2⟩
      rcases List.mem_cons.mp hx2 with rfl | hx2
      · rcases List.mem_cons.mp hx1 with heq | hx1
        · exact absurd heq.symm h
        · have := (List.pairwise_cons.mp hA).1 _ hx1
          omega
      · exact ⟨x, hx1, hx2⟩
  | case4 x y h =>
    intro hA hR
    rcases x with _ | ⟨a, as_⟩
    · simp [merge_scan_same_platform]
    · rcases y with _ | ⟨r, rs⟩
      · simp [merge_scan_same_platform]
      · exact (h a as_ r rs rfl rfl).elim

theorem C10_merge_scan_detects_intersection_witness :
    List.Pairwise (· < ·) [1, 3] ∧ List.Pairwise (· < ·) [2, 3] ∧
      (merge_scan_same_platform [1, 3] [2, 3] = true ↔ ∃ x, x ∈ [1, 3] ∧ x ∈ [2, 3]) :=
  ⟨by decide, by decide,
    C10_merge_scan_detects_intersection [1, 3] [2, 3] (by decide) (by decide)⟩

theorem C8_noop_characterization_witness :
    (60 / 60 * 60 ≤ C3W_state.coin_seconds_earned_last_update ∧
        60 / 60 * 60 ≤ C3W_state.average_coins_last_update →
      update_coin_seconds_earned 100 60 C3W_state = C3W_state) ∧
    (update_coin_seconds_earned 100 60 C3W_state = C3W_state →
      60 / 60 * 60 ≤ C3W_state.coin_seconds_earned_last_update ∧
        60 / 60 * 60 ≤ C3W_state.average_coins_last_update) ∧
    (¬(60 / 60 * 60 ≤ C3W_state.coin_seconds_earned_last_update ∧
        60 / 60 * 60 ≤ C3W_state.average_coins_last_update) →
      update_coin_seconds_earned 100 60 C3W_state =
        { C3W_state with
          coin_seconds_earned := (compute_coin_seconds_earned 100 (60 / 60 * 60) C3W_state).1
          coin_seconds_earned_last_update := 60 / 60 * 60
          average_coins := (compute_coin_seconds_earned 100 (60 / 60 * 60) C3W_state).2
          average_coins_last_update := 60 / 60 * 60 }) :=
  C8_noop_characterization 100 60 C3W_state

lemma mem_pairs_with (s : Finset Nat) (u m v : Nat) :
    (m, v) ∈ pairs_with s u ↔ v = u ∧ m ∈ s := by
  simp only [pairs_with, Finset.mem_image, Prod.mk.injEq]
  constructor
  · rintro ⟨x, hx, rfl, rfl⟩
    exact ⟨rfl, hx⟩
  · rintro ⟨rfl, hm⟩
    exact ⟨m, hm, rfl, rfl⟩

lemma mem_rebuild_rel (f : account_object → Finset Nat) (db : List account_object)
    (m v : Nat) :
    (m, v) ∈ rebuild_rel f db ↔ ∃ b, b ∈ db ∧ b.uid = v ∧ m ∈ f b := by
  induction db with
  | nil => simp [rebuild_rel]
  | cons a db ih =>
    simp only [rebuild_rel, Finset.mem_union, ih, mem_pairs_with, List.mem_cons]
    constructor
    · rintro (⟨b, hb, rfl, hm⟩ | ⟨rfl, hm⟩)
      · exact ⟨b, Or.inr hb, rfl, hm⟩
      · exact ⟨a, Or.inl rfl, rfl, hm⟩
    · rintro ⟨b, hb | hb, rfl, hm⟩
      · subst hb
        exact Or.inr ⟨rfl, hm⟩
      · exact Or.inl ⟨b, hb, rfl, hm⟩

lemma uid_unique {db : List account_object} (h : uids_nodup db) {a b : account_object}
    (ha : a ∈ db) (hb : b ∈ db) (he : a.uid = b.uid) : a = b :=
  List.inj_on_of_nodup_map h ha hb he

lemma db_find_eq_some {db : List account_object} {u : Nat} {a : account_object}
    (h : db_find db u = some a) : a ∈ db ∧ a.uid = u := by
  unfold db_find at h
  refine ⟨List.mem_of_find?_eq_some h, ?_⟩
  have := List.find?_some h
  simpa using this

lemma uids_nodup_filter {db : List account_object} (h : uids_nodup db) (u : Nat) :
    uids_nodup (db.filter (fun b => b.uid != u)) := by
  unfold uids_nodup at *
  exact List.Nodup.sublist ((List.filter_sublist db).map _) h

lemma rebuild_rel_filter (f : account_object → Finset Nat) (db : List account_object)
    (u : Nat) (a : account_object)
    (hn : uids_nodup db) (ha : a ∈ db) (hau : a.uid = u) :
    rebuild_rel f (db.filter (fun b => b.uid != u)) =
      rebuild_rel f db \ pairs_with (f a) a.uid := by
  ext ⟨m, v⟩
  simp only [mem_rebuild_rel, Finset.mem_sdiff, mem_pairs_with, List.mem_filter,
    bne_iff_ne, ne_eq, hau]
  constructor
  · rintro ⟨b, ⟨hb, hbu⟩, rfl, hm⟩
    refine ⟨⟨b, hb, rfl, hm⟩, ?_⟩
    rintro ⟨hv, hma⟩
    exact hbu (by simpa using hv)
  · rintro ⟨⟨b, hb, rfl, hm⟩, hnot⟩
    refine ⟨b, ⟨hb, ?_⟩, rfl, hm⟩
    intro hbu
    have hba : b = a := uid_unique hn hb ha (hbu.trans hau.symm)
    exact hnot ⟨hbu, hba ▸ hm⟩

lemma rebuild_rel_modify (f : account_object → Finset Nat) (db : List account_object)
    (u : Nat) (a a2 : account_object)
    (hn : uids_nodup db) (ha : a ∈ db) (hau : a.uid = u) (h2 : a2.uid = u) :
    (rebuild_rel f db \ pairs_with (f a \ f a2) a2.uid) ∪
        pairs_with (f a2 \ f a) a2.uid =
      rebuild_rel f (a2 :: db.filter (fun b => b.uid != u)) := by
  have hEa : ∀ m, (∃ b, b ∈ db ∧ b.uid = u ∧ m ∈ f b) → m ∈ f a := by
    rintro m ⟨b, hb, hbu, hmb⟩
    have hba : b = a := uid_unique hn hb ha (by rw [hbu, hau])
    rwa [← hba]
  rw [show rebuild_rel f (a2 :: db.filter (fun b => b.uid != u)) =
      rebuild_rel f (db.filter (fun b => b.uid != u)) ∪ pairs_with (f a2) a2.uid from rfl]
  rw [rebuild_rel_filter f db u a hn ha hau]
  ext ⟨m, v⟩
  simp only [Finset.mem_union, Finset.mem_sdiff, mem_pairs_with, mem_rebuild_rel,
    h2, hau]
  constructor
  · rintro (⟨hE, hnot⟩ | ⟨rfl, hm2, hmn⟩)
    · by_cases hv : v = u
      · subst hv
        by_cases hm2 : m ∈ f a2
        · exact Or.inr ⟨rfl, hm2⟩
        · exact absurd ⟨rfl, hEa m hE, hm2⟩ hnot
      · exact Or.inl ⟨hE, fun hc => hv hc.1⟩
    · exact Or.inr ⟨rfl, hm2⟩
  · rintro (⟨hE, hnot⟩ | ⟨rfl, hm2⟩)
    · by_cases hv : v = u
      · subst hv
        exact absurd ⟨rfl, hEa m hE⟩ hnot
      · exact Or.inl ⟨hE, fun hc => hv hc.1⟩
    · by_cases hma : m ∈ f a
      · refine Or.inl ⟨⟨a, ha, hau, hma⟩, ?_⟩
        rintro ⟨_, _, hff⟩
        exact hff hm2
      · exact Or.inr ⟨rfl, hm2, hma⟩

lemma apply_event_ok {st st' : List account_object × account_member_index}
    {e : db_event} (h : apply_event st e = some st') (hok : index_ok st) :
    index_ok st' := by
  obtain ⟨hn, hA, hK⟩ := hok
  cases e with
  | insert a =>
    simp only [apply_event] at h
    cases hf : db_find st.1 a.uid with
    | some b =>
      rw [hf] at h
      simp at h
    | none =>
      rw [hf] at h
      simp only [Option.some.injEq] at h
      subst h
      refine ⟨?_, ?_, ?_⟩
      · unfold uids_nodup at *
        simp only [List.map_cons, List.nodup_cons]
        refine ⟨?_, hn⟩
        intro hmem
        obtain ⟨b, hb, hbu⟩ := List.mem_map.mp hmem
        have hfb := List.find?_eq_none.mp hf b hb
        simp at hfb
        exact hfb hbu
      · show (object_inserted a st.2).account_to_account_memberships =
          rebuild_rel get_account_members (a :: st.1)
        unfold object_inserted
        rw [show rebuild_rel get_account_members (a :: st.1) =
          rebuild_rel get_account_members st.1 ∪
            pairs_with (get_account_members a) a.uid from rfl, hA]
      · show (object_inserted a st.2).account_to_key_memberships =
          rebuild_rel get_key_members (a :: st.1)
        unfold object_inserted
        rw [show rebuild_rel get_key_members (a :: st.1) =
          rebuild_rel get_key_members st.1 ∪
            pairs_with (get_key_members a) a.uid from rfl, hK]
  | remove u =>
    simp only [apply_event] at h
    cases hf : db_find st.1 u with
    | none =>
      rw [hf] at h
      simp at h
    | some a =>
      rw [hf] at h
      simp only [Option.some.injEq] at h
      subst h
      obtain ⟨ha, hau⟩ := db_find_eq_some hf
      refine ⟨uids_nodup_filter hn u, ?_, ?_⟩
      · show (object_removed a st.2).account_to_account_memberships = _
        unfold object_removed
        rw [hA, rebuild_rel_filter get_account_members st.1 u a hn ha hau]
      · show (object_removed a st.2).account_to_key_memberships = _
        unfold object_removed
        rw [hK, rebuild_rel_filter get_key_members st.1 u a hn ha hau]
  | modify u a2 =>
    simp only [apply_event] at h
    cases hf : db_find st.1 u with
    | none =>
      rw [hf] at h
      simp at h
    | some a =>
      rw [hf] at h
      dsimp only at h
      by_cases h2 : a2.uid = u
      · rw [if_pos h2] at h
        simp only [Option.some.injEq] at h
        subst h
        obtain ⟨ha, hau⟩ := db_find_eq_some hf
        refine ⟨?_, ?_, ?_⟩
        · unfold uids_nodup at *
          simp only [List.map_cons, List.nodup_cons]
          refine ⟨?_, uids_nodup_filter hn u⟩
          intro hmem
          obtain ⟨b, hb, hbu⟩ := List.mem_map.mp hmem
          have hb2 := List.mem_filter.mp hb
          have : b.uid ≠ u := by simpa using hb2.2
          exact this (hbu.trans h2)
        · show (object_modified a2 (about_to_modify a st.2)).account_to_account_memberships = _
          unfold object_modified about_to_modify
          rw [show ({ st.2 with
              before_account_members := get_account_members a
              before_key_members := get_key_members a } :
                account_member_index).account_to_account_memberships =
            st.2.account_to_account_memberships from rfl, hA]
          exact rebuild_rel_modify get_account_members st.1 u a a2 hn ha hau h2
        · show (object_modified a2 (about_to_modify a st.2)).account_to_key_memberships = _
          unfold object_modified about_to_modify
          rw [show ({ st.2 with
              before_account_members := get_account_members a
              before_key_members := get_key_members a } :
                account_member_index).account_to_key_memberships =
            st.2.account_to_key_memberships from rfl, hK]
          exact rebuild_rel_modify get_key_members st.1 u a a2 hn ha hau h2
      · rw [if_neg h2] at h
        simp at h

lemma run_events_ok (evs : List db_event)
    (st st' : List account_object × account_member_index)
    (h : run_events evs st = some st') (hok : index_ok st) : index_ok st' := by
  induction evs generalizing st with
  | nil =>
    simp only [run_events, Option.some.injEq] at h
    subst h
    exact hok
  | cons e evs ih =>
    simp only [run_events] at h
    cases ha : apply_event st e with
    | none =>
      rw [ha] at h
      simp at h
    | some st2 =>
      rw [ha] at h
      exact ih st2 h (apply_event_ok ha hok)

/-- C2: after any well-formed sequence of insert / (about-to-modify +
modified) / remove lifecycle events starting from the empty store and
empty index, both incrementally maintained reverse relations equal the
relations rebuilt from scratch over the live accounts: member `m` is
related to uid `v` exactly when the live account with uid `v` currently
references `m` in `get_account_members` / `get_key_members`. -/
theorem C2_membership_index_refinement (evs : List db_event)
    (db : List account_object) (idx : account_member_index)
    (h : run_events evs ([], empty_member_index) = some (db, idx)) :
    idx.account_to_account_memberships = rebuild_rel get_account_members db ∧
      idx.account_to_key_memberships = rebuild_rel get_key_members db := by
  have hok := run_events_ok evs ([], empty_member_index) (db, idx) h
    ⟨List.nodup_nil, rfl, rfl⟩
  exact ⟨hok.2.1, hok.2.2⟩

theorem C2_membership_index_refinement_witness :
    C2_idx.account_to_account_memberships = rebuild_rel get_account_members C2_db ∧
      C2_idx.account_to_key_memberships = rebuild_rel get_key_members C2_db :=
  C2_membership_index_refinement C2_events C2_db C2_idx (by decide)
